import Mathlib

/-!
Verification of the quad_decoder fixed-point geometry kernel (src/lib.rs).

Shallow embedding conventions:
- Fixed-point numbers are represented by their raw two's-complement
  representation as `ℤ`.  `I16F16` raws live in a 32-bit word (value =
  raw / 2^16), `I32F32` and `I64F0` raws live in a 64-bit word (value =
  raw / 2^32 resp. raw).  Arithmetic of the fixed crate wraps on overflow
  (release-mode semantics of the Rust arithmetic operators), which is made
  explicit with `wrap32` / `wrap64`.
- Lossy operations of the fixed crate (multiplication, division,
  `from_num` conversions that drop fractional bits) discard the extra
  fractional bits of the exact result, i.e. they round towards -∞; this is
  `Int.fdiv` on raws.
- Operations that panic in Rust (division by zero, `from_num` out of
  range) return `Option.none`.
- The square-root primitive comes from the external cordic crate whose
  source is not part of this repository; it is modelled from the spec
  (see `sqrtI64F0` below).
-/

namespace QuadDecoder

/-- Two's-complement wrap-around of a 32-bit word (raw of an `I16F16`). -/
def wrap32 (z : ℤ) : ℤ := (z + 2 ^ 31) % 2 ^ 32 - 2 ^ 31

/-- Two's-complement wrap-around of a 64-bit word (raw of an `I64F0` / `I32F32`). -/
def wrap64 (z : ℤ) : ℤ := (z + 2 ^ 63) % 2 ^ 64 - 2 ^ 63

/-- Raw of an `I16F16` is representable in its 32-bit word. -/
def fxValid (a : ℤ) : Prop := -2 ^ 31 ≤ a ∧ a < 2 ^ 31

instance (a : ℤ) : Decidable (fxValid a) := by unfold fxValid; infer_instance

/-- `I16F16` addition (`impl Add`): raw addition, wrapping. -/
def fxAdd (a b : ℤ) : ℤ := wrap32 (a + b)

/-- `I16F16` subtraction (`impl Sub`): raw subtraction, wrapping. -/
def fxSub (a b : ℤ) : ℤ := wrap32 (a - b)

/-- `I16F16` multiplication: the double-width raw product keeps the upper
16 fractional bits, discarding the rest towards -∞, then wraps. -/
def fxMul (a b : ℤ) : ℤ := wrap32 (Int.fdiv (a * b) (2 ^ 16))

/-- Raw of the `I16F16` constant 1.0 (`fixed!(1.0)`). -/
def fxOne : ℤ := 2 ^ 16

/-- `I64F0::from_num` on an `I16F16`: drop the 16 fractional bits,
rounding towards -∞ (always in range). -/
def fxToI64 (a : ℤ) : ℤ := Int.fdiv a (2 ^ 16)

/-- `I16F16::from_num` on an `I64F0` value: re-attach 16 zero fractional
bits; panics (`none`) when the value does not fit in `I16F16`. -/
def i64ToFx (v : ℤ) : Option ℤ :=
  if -2 ^ 15 ≤ v ∧ v < 2 ^ 15 then some (v * 2 ^ 16) else none

/-- `I64F0` addition, wrapping. -/
def i64add (a b : ℤ) : ℤ := wrap64 (a + b)

/-- `I64F0` subtraction, wrapping. -/
def i64sub (a b : ℤ) : ℤ := wrap64 (a - b)

/-- `I64F0` multiplication, wrapping. -/
def i64mul (a b : ℤ) : ℤ := wrap64 (a * b)

/-- `I64F0` negation, wrapping. -/
def i64neg (a : ℤ) : ℤ := wrap64 (-a)

/-- `I64F0` division: panics (`none`) on a zero divisor; otherwise the
exact quotient is floored (fractional bits discarded towards -∞). -/
def i64div (a b : ℤ) : Option ℤ :=
  if b = 0 then none else some (wrap64 (Int.fdiv a b))

/-- `I32F32::from_num` on an `I16F16`: widen by 16 fractional bits (exact). -/
def fxToWide (a : ℤ) : ℤ := a * 2 ^ 16

/-- `I32F32` multiplication: keep the upper 32 fractional bits of the
double-width product, rounding towards -∞, then wrap. -/
def wideMul (a b : ℤ) : ℤ := wrap64 (Int.fdiv (a * b) (2 ^ 32))

/-- `I32F32` addition, wrapping. -/
def wideAdd (a b : ℤ) : ℤ := wrap64 (a + b)

/-- `I16F16::from_num` on an `I32F32`: drop 16 fractional bits towards
-∞; panics (`none`) when the value does not fit in `I16F16`. -/
def wideToFx (a : ℤ) : Option ℤ :=
  if -2 ^ 31 ≤ Int.fdiv a (2 ^ 16) ∧ Int.fdiv a (2 ^ 16) < 2 ^ 31 then
    some (Int.fdiv a (2 ^ 16))
  else none

/-- Binary digit-by-digit (shift-and-add) square root: try to set each
result bit from `fuel - 1` downwards, keeping the square below `n`.  With
`fuel = 64` this is the floor square root of any `n < 2 ^ 128`. -/
def sqrtShiftAdd (fuel : ℕ) (n : ℕ) (acc : ℕ) : ℕ :=
  match fuel with
  | 0 => acc
  | k + 1 =>
    if (acc + 2 ^ k) * (acc + 2 ^ k) ≤ n then sqrtShiftAdd k n (acc + 2 ^ k)
    else sqrtShiftAdd k n acc

/-- Modelled from the spec: the square-root primitive of the external
cordic crate (its source is not in the repository).  The spec describes it
as an iterative shift-and-add fixed-point square-root approximation with
bounded error; on an `I64F0` operand (zero fractional bits) this is the
integer (floor) square root, and a negative operand is a domain error. -/
def sqrtI64F0 (v : ℤ) : Option ℤ :=
  if v < 0 then none else some ((sqrtShiftAdd 64 v.toNat 0 : ℕ) : ℤ)

/-- Modelled from the spec: the same shift-and-add square root acting on
an `I32F32` raw (32 fractional bits), floored to the result's raw grid. -/
def sqrtI32F32 (a : ℤ) : Option ℤ :=
  if a < 0 then none else some ((sqrtShiftAdd 64 (a.toNat * 2 ^ 32) 0 : ℕ) : ℤ)

/-- Modelled from the spec: the same shift-and-add square root acting on
an `I16F16` raw (16 fractional bits).  Only used by the spec-order
variant `absNarrowFirst` below. -/
def sqrtI16F16 (a : ℤ) : Option ℤ :=
  if a < 0 then none else some ((sqrtShiftAdd 64 (a.toNat * 2 ^ 16) 0 : ℕ) : ℤ)

/-- Basic point structure (struct `Vertex`), raws of its two `I16F16` fields. -/
structure Vertex where
  x : ℤ
  y : ℤ
deriving DecidableEq

/-- Basic circle structure (struct `Circle`), raws of its three `I16F16` fields. -/
structure Circle where
  x : ℤ
  y : ℤ
  r : ℤ
deriving DecidableEq

/-- All fields of a `Vertex` are representable raws. -/
def Vertex.valid (v : Vertex) : Prop := fxValid v.x ∧ fxValid v.y

instance (v : Vertex) : Decidable v.valid := by unfold Vertex.valid; infer_instance

/-- All fields of a `Circle` are representable raws. -/
def Circle.valid (c : Circle) : Prop := fxValid c.x ∧ fxValid c.y ∧ fxValid c.r

instance (c : Circle) : Decidable c.valid := by unfold Circle.valid; infer_instance

/-- Componentwise point addition (`impl Add for Vertex`). -/
def Vertex.add (a b : Vertex) : Vertex := ⟨fxAdd a.x b.x, fxAdd a.y b.y⟩

/-- Componentwise point subtraction (`impl Sub for Vertex`). -/
def Vertex.sub (a b : Vertex) : Vertex := ⟨fxSub a.x b.x, fxSub a.y b.y⟩

/-- Uniform scaling (`impl Mul<I16F16> for Vertex`). -/
def Vertex.scale (a : Vertex) (k : ℤ) : Vertex := ⟨fxMul a.x k, fxMul a.y k⟩

/-- Magnitude (`Vertex::abs`): squares in the widened `I32F32` domain,
their sum fed to the cordic square root, the result narrowed to `I16F16`. -/
def Vertex.abs (v : Vertex) : Option ℤ :=
  (sqrtI32F32
      (wideAdd (wideMul (fxToWide v.x) (fxToWide v.x))
        (wideMul (fxToWide v.y) (fxToWide v.y)))).bind
    wideToFx

/-- Written from the spec's words for comparison with `Vertex.abs` (§4.1:
the widened sum is narrowed back to the standard fixed-point type before
the square-root approximation is applied). -/
def absNarrowFirst (v : Vertex) : Option ℤ :=
  (wideToFx
      (wideAdd (wideMul (fxToWide v.x) (fxToWide v.x))
        (wideMul (fxToWide v.y) (fxToWide v.y)))).bind
    sqrtI16F16

/-- Exponential filter step (`Circle::exp_filt`). -/
def Circle.exp_filt (c rhs : Circle) (alpha : ℤ) : Circle :=
  ⟨fxAdd (fxMul c.x (fxSub fxOne alpha)) (fxMul rhs.x alpha),
    fxAdd (fxMul c.y (fxSub fxOne alpha)) (fxMul rhs.y alpha),
    fxAdd (fxMul c.r (fxSub fxOne alpha)) (fxMul rhs.r alpha)⟩

/-- Circle translation (`impl Add<Vertex> for Circle`): center shifted,
radius copied. -/
def Circle.addVertex (c : Circle) (v : Vertex) : Circle :=
  ⟨fxAdd c.x v.x, fxAdd c.y v.y, c.r⟩

/-- Denominator of `f` in `circle_from_three_vertex`:
`2 * (y31 * x12 - y21 * x13)` over `I64F0`. -/
def fdenZ (bx1 by1 bx2 by2 bx3 by3 : ℤ) : ℤ :=
  i64mul 2
    (i64sub (i64mul (i64sub by3 by1) (i64sub bx1 bx2))
      (i64mul (i64sub by2 by1) (i64sub bx1 bx3)))

/-- Denominator of `g`: `2 * (x31 * y12 - x21 * y13)` over `I64F0`. -/
def gdenZ (bx1 by1 bx2 by2 bx3 by3 : ℤ) : ℤ :=
  i64mul 2
    (i64sub (i64mul (i64sub bx3 bx1) (i64sub by1 by2))
      (i64mul (i64sub bx2 bx1) (i64sub by1 by3)))

/-- Numerator of `f`:
`sx13 * x12 + sy13 * x12 + sx21 * x13 + sy21 * x13` over `I64F0`. -/
def fnumZ (bx1 by1 bx2 by2 bx3 by3 : ℤ) : ℤ :=
  i64add
    (i64add
      (i64add (i64mul (i64sub (i64mul bx1 bx1) (i64mul bx3 bx3)) (i64sub bx1 bx2))
        (i64mul (i64sub (i64mul by1 by1) (i64mul by3 by3)) (i64sub bx1 bx2)))
      (i64mul (i64sub (i64mul bx2 bx2) (i64mul bx1 bx1)) (i64sub bx1 bx3)))
    (i64mul (i64sub (i64mul by2 by2) (i64mul by1 by1)) (i64sub bx1 bx3))

/-- Numerator of `g`:
`sx13 * y12 + sy13 * y12 + sx21 * y13 + sy21 * y13` over `I64F0`. -/
def gnumZ (bx1 by1 bx2 by2 bx3 by3 : ℤ) : ℤ :=
  i64add
    (i64add
      (i64add (i64mul (i64sub (i64mul bx1 bx1) (i64mul bx3 bx3)) (i64sub by1 by2))
        (i64mul (i64sub (i64mul by1 by1) (i64mul by3 by3)) (i64sub by1 by2)))
      (i64mul (i64sub (i64mul bx2 bx2) (i64mul bx1 bx1)) (i64sub by1 by3)))
    (i64mul (i64sub (i64mul by2 by2) (i64mul by1 by1)) (i64sub by1 by3))

/-- The constant `c = -bx1*bx1 - by1*by1 - 2*g*bx1 - 2*f*by1` over `I64F0`. -/
def cZ (f g bx1 by1 : ℤ) : ℤ :=
  i64sub
    (i64sub (i64sub (i64mul (i64neg bx1) bx1) (i64mul by1 by1))
      (i64mul (i64mul 2 g) bx1))
    (i64mul (i64mul 2 f) by1)

/-- The radicand `sqr_of_r = g*g + f*f - c` over `I64F0`. -/
def sqrOfRZ (f g bx1 by1 : ℤ) : ℤ :=
  i64sub (i64add (i64mul g g) (i64mul f f)) (cZ f g bx1 by1)

/-- The `I64F0` stage of `circle_from_three_vertex`, taking the six
already-floored coordinates. -/
def fitCore (bx1 by1 bx2 by2 bx3 by3 : ℤ) : Option Circle :=
  (i64div (fnumZ bx1 by1 bx2 by2 bx3 by3) (fdenZ bx1 by1 bx2 by2 bx3 by3)).bind fun f =>
    (i64div (gnumZ bx1 by1 bx2 by2 bx3 by3) (gdenZ bx1 by1 bx2 by2 bx3 by3)).bind fun g =>
      (i64ToFx (i64neg g)).bind fun cx =>
        (i64ToFx (i64neg f)).bind fun cy =>
          (sqrtI64F0 (sqrOfRZ f g bx1 by1)).bind fun rv =>
            (i64ToFx rv).map fun cr => ⟨cx, cy, cr⟩

/-- `circle_from_three_vertex`: every coordinate is converted to `I64F0`
(dropping the fractional bits) and handed to the closed-form fit. -/
def circle_from_three_vertex (v1 v2 v3 : Vertex) : Option Circle :=
  fitCore (fxToI64 v1.x) (fxToI64 v1.y) (fxToI64 v2.x) (fxToI64 v2.y)
    (fxToI64 v3.x) (fxToI64 v3.y)

/-! ## Arithmetic lemmas about the wrapped words -/

theorem wrap32_emod (z : ℤ) : wrap32 z % 2 ^ 32 = z % 2 ^ 32 := by
  unfold wrap32; omega

theorem wrap64_emod (z : ℤ) : wrap64 z % 2 ^ 64 = z % 2 ^ 64 := by
  unfold wrap64; omega

theorem wrap32_eq_of_emod {a b : ℤ} (h : a % 2 ^ 32 = b % 2 ^ 32) :
    wrap32 a = wrap32 b := by
  unfold wrap32; omega

theorem wrap64_eq_of_emod {a b : ℤ} (h : a % 2 ^ 64 = b % 2 ^ 64) :
    wrap64 a = wrap64 b := by
  unfold wrap64; omega

theorem wrap32_eq_self {z : ℤ} (h₁ : -2 ^ 31 ≤ z) (h₂ : z < 2 ^ 31) :
    wrap32 z = z := by
  unfold wrap32; omega

theorem wrap64_eq_self {z : ℤ} (h₁ : -2 ^ 63 ≤ z) (h₂ : z < 2 ^ 63) :
    wrap64 z = z := by
  unfold wrap64; omega

theorem wrap32_add_left (a b : ℤ) : wrap32 (wrap32 a + b) = wrap32 (a + b) := by
  have := wrap32_emod a; unfold wrap32 at *; omega

theorem wrap32_add_right (a b : ℤ) : wrap32 (a + wrap32 b) = wrap32 (a + b) := by
  have := wrap32_emod b; unfold wrap32 at *; omega

theorem wrap64_add_left (a b : ℤ) : wrap64 (wrap64 a + b) = wrap64 (a + b) := by
  have := wrap64_emod a; unfold wrap64 at *; omega

theorem wrap64_add_right (a b : ℤ) : wrap64 (a + wrap64 b) = wrap64 (a + b) := by
  have := wrap64_emod b; unfold wrap64 at *; omega

theorem wrap64_sub_left (a b : ℤ) : wrap64 (wrap64 a - b) = wrap64 (a - b) := by
  have := wrap64_emod a; unfold wrap64 at *; omega

theorem wrap64_sub_right (a b : ℤ) : wrap64 (a - wrap64 b) = wrap64 (a - b) := by
  have := wrap64_emod b; unfold wrap64 at *; omega

theorem wrap64_modEq (z : ℤ) : wrap64 z ≡ z [ZMOD 2 ^ 64] := wrap64_emod z

theorem wrap64_mul_left (a b : ℤ) : wrap64 (wrap64 a * b) = wrap64 (a * b) :=
  wrap64_eq_of_emod ((wrap64_modEq a).mul_right b)

theorem wrap64_mul_right (a b : ℤ) : wrap64 (a * wrap64 b) = wrap64 (a * b) :=
  wrap64_eq_of_emod ((wrap64_modEq b).mul_left a)

theorem wrap64_neg_arg (a : ℤ) : wrap64 (-wrap64 a) = wrap64 (-a) :=
  wrap64_eq_of_emod ((wrap64_modEq a).neg)

/-! ## Floor-division facts -/

theorem fdiv_neg_neg : ∀ a b : ℤ, Int.fdiv (-a) (-b) = Int.fdiv a b
  | 0, _ => by rw [Int.neg_zero, Int.zero_fdiv, Int.zero_fdiv]
  | _, 0 => by rw [Int.neg_zero, Int.fdiv_zero, Int.fdiv_zero]
  | .ofNat (_ + 1), .ofNat (_ + 1) => rfl
  | .ofNat (_ + 1), .negSucc _ => rfl
  | .negSucc _, .ofNat (_ + 1) => rfl
  | .negSucc _, .negSucc _ => rfl

theorem fdiv_add_mul_right (a t : ℤ) {d : ℤ} (hd : d ≠ 0) :
    Int.fdiv (a + t * d) d = Int.fdiv a d + t := by
  rcases lt_or_gt_of_ne hd with hneg | hpos
  · have h1 : Int.fdiv (a + t * d) d = Int.fdiv (-(a + t * d)) (-d) :=
      (fdiv_neg_neg _ _).symm
    have h2 : Int.fdiv a d = Int.fdiv (-a) (-d) := (fdiv_neg_neg _ _).symm
    have h3 : -(a + t * d) = -a + t * -d := by ring
    rw [h1, h2, h3, Int.fdiv_eq_ediv _ (by omega), Int.fdiv_eq_ediv _ (by omega),
      Int.add_mul_ediv_right _ _ (by omega : -d ≠ 0)]
  · rw [Int.fdiv_eq_ediv _ (by omega), Int.fdiv_eq_ediv _ (by omega),
      Int.add_mul_ediv_right _ _ hd]

/-! ## Pointwise lemmas about the `I16F16` operations -/

theorem fxMul_one {a : ℤ} (ha : fxValid a) : fxMul a fxOne = a := by
  unfold fxMul fxOne
  rw [Int.mul_fdiv_cancel a (by norm_num)]
  exact wrap32_eq_self ha.1 ha.2

theorem fxMul_zero (a : ℤ) : fxMul a 0 = 0 := by
  unfold fxMul
  rw [Int.mul_zero, Int.zero_fdiv]
  decide

theorem blend_zero {a b : ℤ} (ha : fxValid a) :
    fxAdd (fxMul a (fxSub fxOne 0)) (fxMul b 0) = a := by
  have h1 : fxSub fxOne 0 = fxOne := by decide
  rw [h1, fxMul_one ha, fxMul_zero]
  unfold fxAdd
  rw [Int.add_zero]
  exact wrap32_eq_self ha.1 ha.2

theorem blend_one {a b : ℤ} (hb : fxValid b) :
    fxAdd (fxMul a (fxSub fxOne fxOne)) (fxMul b fxOne) = b := by
  have h1 : fxSub fxOne fxOne = 0 := by decide
  rw [h1, fxMul_zero, fxMul_one hb]
  unfold fxAdd
  rw [Int.zero_add]
  exact wrap32_eq_self hb.1 hb.2

/-! ## Wrap-free evaluation of the fit's numerators and denominators

With all six floored coordinates in the `I16F16` integer range, every
intermediate of the four numerator/denominator polynomials stays far below
the 64-bit bound, so the wrapping operations compute the exact values. -/

theorem i64mul_eq {a b A B : ℤ} (ha : |a| ≤ A) (hb : |b| ≤ B)
    (h : A * B < 2 ^ 63) : i64mul a b = a * b := by
  have habs : |a * b| ≤ A * B := by
    rw [abs_mul]
    exact mul_le_mul ha hb (abs_nonneg b) (le_trans (abs_nonneg a) ha)
  have h2 := abs_le.mp habs
  exact wrap64_eq_self (by linarith) (by linarith)

theorem i64add_eq {a b A B : ℤ} (ha : |a| ≤ A) (hb : |b| ≤ B)
    (h : A + B < 2 ^ 63) : i64add a b = a + b := by
  have ha' := abs_le.mp ha
  have hb' := abs_le.mp hb
  exact wrap64_eq_self (by linarith) (by linarith)

theorem i64sub_eq {a b A B : ℤ} (ha : |a| ≤ A) (hb : |b| ≤ B)
    (h : A + B < 2 ^ 63) : i64sub a b = a - b := by
  have ha' := abs_le.mp ha
  have hb' := abs_le.mp hb
  exact wrap64_eq_self (by linarith) (by linarith)

theorem abs_sub_le_two {a b A B : ℤ} (ha : |a| ≤ A) (hb : |b| ≤ B) :
    |a - b| ≤ A + B := by
  have h1 : |a - b| ≤ |a| + |b| := by
    rw [sub_eq_add_neg]
    exact (abs_add a (-b)).trans_eq (by rw [abs_neg])
  linarith

theorem abs_add_le_two {a b A B : ℤ} (ha : |a| ≤ A) (hb : |b| ≤ B) :
    |a + b| ≤ A + B := by
  have h1 : |a + b| ≤ |a| + |b| := abs_add a b
  linarith

theorem abs_mul_le_two {a b A B : ℤ} (ha : |a| ≤ A) (hb : |b| ≤ B) :
    |a * b| ≤ A * B := by
  rw [abs_mul]
  exact mul_le_mul ha hb (abs_nonneg b) (le_trans (abs_nonneg a) ha)

theorem diff_small {a b : ℤ} (ha : |a| ≤ 2 ^ 15) (hb : |b| ≤ 2 ^ 15) :
    i64sub a b = a - b ∧ |a - b| ≤ 2 ^ 16 := by
  refine ⟨i64sub_eq ha hb (by norm_num), ?_⟩
  have := abs_sub_le_two ha hb
  linarith [this]

theorem sqdiff_small {a b : ℤ} (ha : |a| ≤ 2 ^ 15) (hb : |b| ≤ 2 ^ 15) :
    i64sub (i64mul a a) (i64mul b b) = a * a - b * b ∧
      |a * a - b * b| ≤ 2 ^ 31 := by
  have m1 : i64mul a a = a * a := i64mul_eq ha ha (by norm_num)
  have m2 : i64mul b b = b * b := i64mul_eq hb hb (by norm_num)
  have b1 : |a * a| ≤ 2 ^ 30 :=
    (abs_mul_le_two ha ha).trans_eq (by norm_num)
  have b2 : |b * b| ≤ 2 ^ 30 :=
    (abs_mul_le_two hb hb).trans_eq (by norm_num)
  refine ⟨?_, ?_⟩
  · rw [m1, m2]
    exact i64sub_eq b1 b2 (by norm_num)
  · have := abs_sub_le_two b1 b2
    linarith [this]

theorem num_eval {s1 s2 s3 s4 d1 d2 : ℤ}
    (h1 : |s1| ≤ 2 ^ 31) (h2 : |s2| ≤ 2 ^ 31) (h3 : |s3| ≤ 2 ^ 31)
    (h4 : |s4| ≤ 2 ^ 31) (hd1 : |d1| ≤ 2 ^ 16) (hd2 : |d2| ≤ 2 ^ 16) :
    i64add (i64add (i64add (i64mul s1 d1) (i64mul s2 d1)) (i64mul s3 d2))
        (i64mul s4 d2) =
      s1 * d1 + s2 * d1 + s3 * d2 + s4 * d2 := by
  have p1 : |s1 * d1| ≤ 2 ^ 47 := (abs_mul_le_two h1 hd1).trans_eq (by norm_num)
  have p2 : |s2 * d1| ≤ 2 ^ 47 := (abs_mul_le_two h2 hd1).trans_eq (by norm_num)
  have p3 : |s3 * d2| ≤ 2 ^ 47 := (abs_mul_le_two h3 hd2).trans_eq (by norm_num)
  have p4 : |s4 * d2| ≤ 2 ^ 47 := (abs_mul_le_two h4 hd2).trans_eq (by norm_num)
  have m1 : i64mul s1 d1 = s1 * d1 := i64mul_eq h1 hd1 (by norm_num)
  have m2 : i64mul s2 d1 = s2 * d1 := i64mul_eq h2 hd1 (by norm_num)
  have m3 : i64mul s3 d2 = s3 * d2 := i64mul_eq h3 hd2 (by norm_num)
  have m4 : i64mul s4 d2 = s4 * d2 := i64mul_eq h4 hd2 (by norm_num)
  rw [m1, m2, m3, m4]
  have a1 : i64add (s1 * d1) (s2 * d1) = s1 * d1 + s2 * d1 :=
    i64add_eq p1 p2 (by norm_num)
  rw [a1]
  have q1 : |s1 * d1 + s2 * d1| ≤ 2 ^ 48 :=
    (abs_add_le_two p1 p2).trans_eq (by norm_num)
  have a2 : i64add (s1 * d1 + s2 * d1) (s3 * d2) =
      s1 * d1 + s2 * d1 + s3 * d2 := i64add_eq q1 p3 (by norm_num)
  rw [a2]
  have q2 : |s1 * d1 + s2 * d1 + s3 * d2| ≤ 2 ^ 48 + 2 ^ 47 :=
    abs_add_le_two q1 p3
  exact i64add_eq q2 p4 (by norm_num)

theorem den_eval {p q r s : ℤ} (hp : |p| ≤ 2 ^ 16) (hq : |q| ≤ 2 ^ 16)
    (hr : |r| ≤ 2 ^ 16) (hs : |s| ≤ 2 ^ 16) :
    i64mul 2 (i64sub (i64mul p q) (i64mul r s)) = 2 * (p * q - r * s) := by
  have m1 : i64mul p q = p * q := i64mul_eq hp hq (by norm_num)
  have m2 : i64mul r s = r * s := i64mul_eq hr hs (by norm_num)
  have b1 : |p * q| ≤ 2 ^ 32 := (abs_mul_le_two hp hq).trans_eq (by norm_num)
  have b2 : |r * s| ≤ 2 ^ 32 := (abs_mul_le_two hr hs).trans_eq (by norm_num)
  rw [m1, m2]
  have s1 : i64sub (p * q) (r * s) = p * q - r * s :=
    i64sub_eq b1 b2 (by norm_num)
  rw [s1]
  have b3 : |p * q - r * s| ≤ 2 ^ 33 :=
    (abs_sub_le_two b1 b2).trans_eq (by norm_num)
  exact i64mul_eq (by norm_num : |(2 : ℤ)| ≤ 2) b3 (by norm_num)

theorem fnumZ_exact {x1 y1 x2 y2 x3 y3 : ℤ}
    (h1 : |x1| ≤ 2 ^ 15) (h2 : |y1| ≤ 2 ^ 15) (h3 : |x2| ≤ 2 ^ 15)
    (h4 : |y2| ≤ 2 ^ 15) (h5 : |x3| ≤ 2 ^ 15) (h6 : |y3| ≤ 2 ^ 15) :
    fnumZ x1 y1 x2 y2 x3 y3 =
      (x1 * x1 - x3 * x3) * (x1 - x2) + (y1 * y1 - y3 * y3) * (x1 - x2) +
        (x2 * x2 - x1 * x1) * (x1 - x3) + (y2 * y2 - y1 * y1) * (x1 - x3) := by
  obtain ⟨e1, b1⟩ := sqdiff_small h1 h5
  obtain ⟨e2, b2⟩ := sqdiff_small h2 h6
  obtain ⟨e3, b3⟩ := sqdiff_small h3 h1
  obtain ⟨e4, b4⟩ := sqdiff_small h4 h2
  obtain ⟨e5, b5⟩ := diff_small h1 h3
  obtain ⟨e6, b6⟩ := diff_small h1 h5
  unfold fnumZ
  rw [e1, e2, e3, e4, e5, e6]
  exact num_eval b1 b2 b3 b4 b5 b6

theorem gnumZ_exact {x1 y1 x2 y2 x3 y3 : ℤ}
    (h1 : |x1| ≤ 2 ^ 15) (h2 : |y1| ≤ 2 ^ 15) (h3 : |x2| ≤ 2 ^ 15)
    (h4 : |y2| ≤ 2 ^ 15) (h5 : |x3| ≤ 2 ^ 15) (h6 : |y3| ≤ 2 ^ 15) :
    gnumZ x1 y1 x2 y2 x3 y3 =
      (x1 * x1 - x3 * x3) * (y1 - y2) + (y1 * y1 - y3 * y3) * (y1 - y2) +
        (x2 * x2 - x1 * x1) * (y1 - y3) + (y2 * y2 - y1 * y1) * (y1 - y3) := by
  obtain ⟨e1, b1⟩ := sqdiff_small h1 h5
  obtain ⟨e2, b2⟩ := sqdiff_small h2 h6
  obtain ⟨e3, b3⟩ := sqdiff_small h3 h1
  obtain ⟨e4, b4⟩ := sqdiff_small h4 h2
  obtain ⟨e5, b5⟩ := diff_small h2 h4
  obtain ⟨e6, b6⟩ := diff_small h2 h6
  unfold gnumZ
  rw [e1, e2, e3, e4, e5, e6]
  exact num_eval b1 b2 b3 b4 b5 b6

theorem fdenZ_exact {x1 y1 x2 y2 x3 y3 : ℤ}
    (h1 : |x1| ≤ 2 ^ 15) (h2 : |y1| ≤ 2 ^ 15) (h3 : |x2| ≤ 2 ^ 15)
    (h4 : |y2| ≤ 2 ^ 15) (h5 : |x3| ≤ 2 ^ 15) (h6 : |y3| ≤ 2 ^ 15) :
    fdenZ x1 y1 x2 y2 x3 y3 =
      2 * ((y3 - y1) * (x1 - x2) - (y2 - y1) * (x1 - x3)) := by
  obtain ⟨e1, b1⟩ := diff_small h6 h2
  obtain ⟨e2, b2⟩ := diff_small h1 h3
  obtain ⟨e3, b3⟩ := diff_small h4 h2
  obtain ⟨e4, b4⟩ := diff_small h1 h5
  unfold fdenZ
  rw [e1, e2, e3, e4]
  exact den_eval b1 b2 b3 b4

theorem gdenZ_exact {x1 y1 x2 y2 x3 y3 : ℤ}
    (h1 : |x1| ≤ 2 ^ 15) (h2 : |y1| ≤ 2 ^ 15) (h3 : |x2| ≤ 2 ^ 15)
    (h4 : |y2| ≤ 2 ^ 15) (h5 : |x3| ≤ 2 ^ 15) (h6 : |y3| ≤ 2 ^ 15) :
    gdenZ x1 y1 x2 y2 x3 y3 =
      2 * ((x3 - x1) * (y1 - y2) - (x2 - x1) * (y1 - y3)) := by
  obtain ⟨e1, b1⟩ := diff_small h5 h1
  obtain ⟨e2, b2⟩ := diff_small h2 h4
  obtain ⟨e3, b3⟩ := diff_small h3 h1
  obtain ⟨e4, b4⟩ := diff_small h2 h6
  unfold gdenZ
  rw [e1, e2, e3, e4]
  exact den_eval b1 b2 b3 b4

/-! ## Floor conversion facts -/

theorem fxToI64_bound {a : ℤ} (h : fxValid a) :
    -2 ^ 15 ≤ fxToI64 a ∧ fxToI64 a < 2 ^ 15 := by
  unfold fxValid at h
  unfold fxToI64
  rw [Int.fdiv_eq_ediv _ (by norm_num)]
  omega

theorem floor_shift {a tcoord tx : ℤ} (he : tcoord = tx * 2 ^ 16)
    (hs : fxValid (a + tcoord)) :
    fxToI64 (fxAdd a tcoord) = fxToI64 a + tx ∧
      -2 ^ 15 ≤ fxToI64 a + tx ∧ fxToI64 a + tx < 2 ^ 15 := by
  subst he
  have h1 : fxAdd a (tx * 2 ^ 16) = a + tx * 2 ^ 16 := by
    unfold fxAdd
    exact wrap32_eq_self hs.1 hs.2
  have h2 : fxToI64 (a + tx * 2 ^ 16) = fxToI64 a + tx := by
    unfold fxToI64
    exact fdiv_add_mul_right a tx (by norm_num)
  have h3 := fxToI64_bound hs
  rw [h2] at h3
  exact ⟨by rw [h1, h2], h3⟩

theorem i64div_some {a b w : ℤ} (h : i64div a b = some w) :
    b ≠ 0 ∧ w = wrap64 (Int.fdiv a b) := by
  unfold i64div at h
  split_ifs at h with hq
  exact ⟨hq, (Option.some.inj h).symm⟩

theorem i64ToFx_some {v w : ℤ} (h : i64ToFx v = some w) :
    (-2 ^ 15 ≤ v ∧ v < 2 ^ 15) ∧ w = v * 2 ^ 16 := by
  unfold i64ToFx at h
  split_ifs at h with hq
  exact ⟨hq, (Option.some.inj h).symm⟩

/-! ## Claim theorems -/

/-- C1: with the three collinear points (0,0), (1,1), (2,2) both fit
denominators evaluate to zero and `circle_from_three_vertex` hits a
division fault (`none`, a panic in the Rust source): the collinear-input
error demanded by the spec is not detected or reported by the code. -/
theorem collinear_input_faults :
    circle_from_three_vertex ⟨0, 0⟩ ⟨65536, 65536⟩ ⟨131072, 131072⟩ = none ∧
      fdenZ 0 0 1 1 2 2 = 0 ∧ gdenZ 0 0 1 1 2 2 = 0 := by
  decide

/-- C2: the three reference inputs of the spec fit to exactly the listed
circles (raws are the values scaled by 2^16): (1,0),(0,1),(-1,0) to
Circle(0,0,1); (5,2),(2,5),(-1,2) to Circle(2,2,3); (3,2),(2,3),(1,2) to
Circle(2,2,1). -/
theorem circle_fit_reference_points :
    circle_from_three_vertex ⟨65536, 0⟩ ⟨0, 65536⟩ ⟨-65536, 0⟩ =
        some ⟨0, 0, 65536⟩ ∧
      circle_from_three_vertex ⟨327680, 131072⟩ ⟨131072, 327680⟩ ⟨-65536, 131072⟩ =
        some ⟨131072, 131072, 196608⟩ ∧
      circle_from_three_vertex ⟨196608, 131072⟩ ⟨131072, 196608⟩ ⟨65536, 131072⟩ =
        some ⟨131072, 131072, 65536⟩ := by
  decide

/-- C5: the exponential filter step computes
`old * (1 - alpha) + new * alpha` componentwise in `I16F16` arithmetic
with no clamping or validation of alpha; alpha = 0 is the identity on
`old` and alpha = 1 returns `new` exactly. -/
theorem exp_filt_blend_spec :
    (∀ (old new : Circle) (alpha : ℤ),
        old.exp_filt new alpha =
          ⟨fxAdd (fxMul old.x (fxSub fxOne alpha)) (fxMul new.x alpha),
            fxAdd (fxMul old.y (fxSub fxOne alpha)) (fxMul new.y alpha),
            fxAdd (fxMul old.r (fxSub fxOne alpha)) (fxMul new.r alpha)⟩) ∧
      (∀ old new : Circle, old.valid → old.exp_filt new 0 = old) ∧
      (∀ old new : Circle, new.valid → old.exp_filt new fxOne = new) := by
  refine ⟨fun old new alpha => rfl, ?_, ?_⟩
  · rintro ⟨ox, oy, og⟩ new ⟨h1, h2, h3⟩
    simp only [Circle.exp_filt]
    rw [blend_zero h1, blend_zero h2, blend_zero h3]
  · rintro old ⟨nx, ny, ng⟩ ⟨h1, h2, h3⟩
    simp only [Circle.exp_filt]
    rw [blend_one h1, blend_one h2, blend_one h3]

/-- Witness for C5 at concrete circles. -/
theorem exp_filt_blend_spec_witness :
    Circle.exp_filt ⟨65536, 131072, 196608⟩ ⟨262144, 327680, 393216⟩ 0 =
        ⟨65536, 131072, 196608⟩ ∧
      Circle.exp_filt ⟨65536, 131072, 196608⟩ ⟨262144, 327680, 393216⟩ fxOne =
        ⟨262144, 327680, 393216⟩ :=
  ⟨exp_filt_blend_spec.2.1 ⟨65536, 131072, 196608⟩ ⟨262144, 327680, 393216⟩
      (by decide),
    exp_filt_blend_spec.2.2 ⟨65536, 131072, 196608⟩ ⟨262144, 327680, 393216⟩
      (by decide)⟩

/-- C6: blending Circle(0,0,0) towards Circle(2000,2000,2000) with
alpha = 0.5 (raw 32768) gives exactly Circle(1000,1000,1000), and a second
step with the same target gives exactly Circle(1500,1500,1500). -/
theorem exp_filt_convergence :
    Circle.exp_filt ⟨0, 0, 0⟩ ⟨131072000, 131072000, 131072000⟩ 32768 =
        ⟨65536000, 65536000, 65536000⟩ ∧
      Circle.exp_filt ⟨65536000, 65536000, 65536000⟩
          ⟨131072000, 131072000, 131072000⟩ 32768 =
        ⟨98304000, 98304000, 98304000⟩ := by
  decide

/-- C9: translating a circle by a point yields the point-algebra sum of
the center with the point, and copies the radius field unchanged. -/
theorem circle_translate_center_radius :
    ∀ (c : Circle) (v : Vertex),
      c.addVertex v =
        ⟨(Vertex.add ⟨c.x, c.y⟩ v).x, (Vertex.add ⟨c.x, c.y⟩ v).y, c.r⟩ :=
  fun _ _ => rfl

/-- C10: point addition is commutative and associative, and scaling by
the multiplicative identity 1 returns the point unchanged. -/
theorem vertex_algebra_laws :
    (∀ a b : Vertex, a.add b = b.add a) ∧
      (∀ a b c : Vertex, (a.add b).add c = a.add (b.add c)) ∧
      (∀ a : Vertex, a.valid → a.scale fxOne = a) := by
  refine ⟨?_, ?_, ?_⟩
  · intro a b
    simp only [Vertex.add, fxAdd, Int.add_comm a.x b.x, Int.add_comm a.y b.y]
  · intro a b c
    simp only [Vertex.add, fxAdd, wrap32_add_left, wrap32_add_right,
      Int.add_assoc]
  · rintro ⟨ax, ay⟩ ⟨hx, hy⟩
    simp only [Vertex.scale]
    rw [fxMul_one hx, fxMul_one hy]

/-- Witness for C10's scaling-identity component at a concrete point. -/
theorem vertex_algebra_laws_witness :
    Vertex.scale ⟨65536, -131072⟩ fxOne = ⟨65536, -131072⟩ :=
  vertex_algebra_laws.2.2 ⟨65536, -131072⟩ (by decide)

/-- C7 counterexample: for the point (300, 0) the code computes the
magnitude 300 (the square root runs on the widened `I32F32` sum and only
its result is narrowed), while narrowing the widened sum back to `I16F16`
before the square root — the order the claim states — overflows the
narrowing conversion and faults. -/
theorem abs_narrow_order_counterexample :
    Vertex.abs ⟨19660800, 0⟩ = some 19660800 ∧
      absNarrowFirst ⟨19660800, 0⟩ = none := by
  decide

/-- C7 amended: the squares are computed in the widened `I32F32` domain
(exactly, with no overflow when the summed squares stay below the 64-bit
bound), the square root is applied to the widened sum, and only the result
is narrowed back to `I16F16`; the magnitude of (3,4) is exactly 5. -/
theorem abs_widened_magnitude :
    (∀ a b : ℤ, fxValid a → fxValid b → a ^ 2 + b ^ 2 < 2 ^ 63 →
        Vertex.abs ⟨a, b⟩ = (sqrtI32F32 (a ^ 2 + b ^ 2)).bind wideToFx) ∧
      Vertex.abs ⟨196608, 262144⟩ = some 327680 := by
  constructor
  · intro a b ha hb hs
    have ha2 : 0 ≤ a ^ 2 := sq_nonneg a
    have hb2 : 0 ≤ b ^ 2 := sq_nonneg b
    unfold Vertex.abs wideAdd wideMul fxToWide
    have e1 : (a * 2 ^ 16) * (a * 2 ^ 16) = a ^ 2 * 2 ^ 32 := by ring
    have e2 : (b * 2 ^ 16) * (b * 2 ^ 16) = b ^ 2 * 2 ^ 32 := by ring
    have w1 : wrap64 (a ^ 2) = a ^ 2 :=
      wrap64_eq_self (by linarith) (by linarith)
    have w2 : wrap64 (b ^ 2) = b ^ 2 :=
      wrap64_eq_self (by linarith) (by linarith)
    have w3 : wrap64 (a ^ 2 + b ^ 2) = a ^ 2 + b ^ 2 :=
      wrap64_eq_self (by linarith) hs
    rw [e1, e2, Int.mul_fdiv_cancel _ (by norm_num : (2 ^ 32 : ℤ) ≠ 0),
      Int.mul_fdiv_cancel _ (by norm_num : (2 ^ 32 : ℤ) ≠ 0), w1, w2, w3]
  · decide

/-- Witness for C7's amended theorem at the point (3, 4). -/
theorem abs_widened_magnitude_witness :
    Vertex.abs ⟨196608, 262144⟩ =
      (sqrtI32F32 ((196608 : ℤ) ^ 2 + (262144 : ℤ) ^ 2)).bind wideToFx :=
  abs_widened_magnitude.1 196608 262144 (by decide) (by decide) (by decide)

/-- C8 counterexample: for the integer points (0,0), (32767,1),
(-32765,-1) — floors of representable `I16F16` inputs — both fit
denominators are nonzero (the divisions succeed), yet the radicand
`sqr_of_r` computed in wrapping 64-bit arithmetic is negative: the
negative-radicand case can occur. -/
theorem radicand_overflow_counterexample :
    fdenZ 0 0 32767 1 (-32765) (-1) ≠ 0 ∧
      gdenZ 0 0 32767 1 (-32765) (-1) ≠ 0 ∧
      ((i64div (fnumZ 0 0 32767 1 (-32765) (-1)) (fdenZ 0 0 32767 1 (-32765) (-1))).bind
          fun f =>
            (i64div (gnumZ 0 0 32767 1 (-32765) (-1))
                (gdenZ 0 0 32767 1 (-32765) (-1))).map
              fun g => sqrOfRZ f g 0 0) =
        some (-866168800144130023) ∧
      (-866168800144130023 : ℤ) < 0 := by
  decide

/-- The radicand computation fuses to a single wrap of the exact
algebraic value `(g + x)^2 + (f + y)^2`. -/
theorem sqrOfRZ_wrap (f g x y : ℤ) :
    sqrOfRZ f g x y = wrap64 ((g + x) ^ 2 + (f + y) ^ 2) := by
  unfold sqrOfRZ cZ i64sub i64add i64mul i64neg
  simp only [wrap64_mul_left, wrap64_mul_right, wrap64_sub_left,
    wrap64_sub_right, wrap64_add_left, wrap64_add_right]
  exact congrArg wrap64 (by ring)

/-- C8 amended: algebraically the radicand `sqr_of_r = g*g + f*f - c`
equals `(g + x1)^2 + (f + y1)^2`, so in exact integer arithmetic — i.e.
whenever that square sum stays below the 64-bit bound so that no
intermediate wraps — the computed radicand is that square sum and is
non-negative; with 64-bit wrap-around it can be negative
(see the counterexample). -/
theorem radicand_nonneg_exact (f g x y : ℤ)
    (h : (g + x) ^ 2 + (f + y) ^ 2 < 2 ^ 63) :
    sqrOfRZ f g x y = (g + x) ^ 2 + (f + y) ^ 2 ∧ 0 ≤ sqrOfRZ f g x y := by
  have hnn : 0 ≤ (g + x) ^ 2 + (f + y) ^ 2 :=
    add_nonneg (sq_nonneg _) (sq_nonneg _)
  have he : sqrOfRZ f g x y = (g + x) ^ 2 + (f + y) ^ 2 :=
    (sqrOfRZ_wrap f g x y).trans (wrap64_eq_self (by linarith) h)
  exact ⟨he, he ▸ hnn⟩

/-- Witness for C8's amended theorem at the values arising from the
(3,2),(2,3),(1,2) fit. -/
theorem radicand_nonneg_exact_witness :
    sqrOfRZ (-2) (-2) 3 2 = ((-2 : ℤ) + 3) ^ 2 + ((-2 : ℤ) + 2) ^ 2 ∧
      0 ≤ sqrOfRZ (-2) (-2) 3 2 :=
  radicand_nonneg_exact (-2) (-2) 3 2 (by decide)

/-- C4: the fit only depends on the `I64F0` conversions (the floored
integer parts) of the six input coordinates — two triples with equal
floors give identical circles — and a returned radius is the narrowing of
an integer-valued square root, i.e. an integer times 2^16 in raw form. -/
theorem fit_depends_on_integer_parts :
    (∀ u1 u2 u3 w1 w2 w3 : Vertex,
        fxToI64 u1.x = fxToI64 w1.x → fxToI64 u1.y = fxToI64 w1.y →
        fxToI64 u2.x = fxToI64 w2.x → fxToI64 u2.y = fxToI64 w2.y →
        fxToI64 u3.x = fxToI64 w3.x → fxToI64 u3.y = fxToI64 w3.y →
        circle_from_three_vertex u1 u2 u3 = circle_from_three_vertex w1 w2 w3) ∧
      (∀ (v1 v2 v3 : Vertex) (c : Circle),
        circle_from_three_vertex v1 v2 v3 = some c →
        ∃ n : ℕ, c.r = (n : ℤ) * 2 ^ 16) := by
  constructor
  · intro u1 u2 u3 w1 w2 w3 h1 h2 h3 h4 h5 h6
    unfold circle_from_three_vertex
    rw [h1, h2, h3, h4, h5, h6]
  · intro v1 v2 v3 c h
    unfold circle_from_three_vertex fitCore at h
    simp only [Option.bind_eq_some, Option.map_eq_some'] at h
    obtain ⟨f, hf, g, hg, cx, hcx, cy, hcy, rv, hrv, cr, hcr, hc⟩ := h
    unfold sqrtI64F0 at hrv
    split at hrv
    · exact absurd hrv (by simp)
    · unfold i64ToFx at hcr
      split at hcr
      · refine ⟨sqrtShiftAdd 64 (sqrOfRZ f g (fxToI64 v1.x) (fxToI64 v1.y)).toNat 0, ?_⟩
        rw [← hc]
        have hrv' : rv = ((sqrtShiftAdd 64
            (sqrOfRZ f g (fxToI64 v1.x) (fxToI64 v1.y)).toNat 0 : ℕ) : ℤ) :=
          (Option.some.inj hrv).symm
        have hcr' : cr = rv * 2 ^ 16 := (Option.some.inj hcr).symm
        rw [hcr', hrv']
      · exact absurd hcr (by simp)

/-- C3 counterexample: translating the unit-circle triple by the purely
fractional point (0.5, 0) does not move the fitted circle (the fractional
parts are floored away), while translating the fitted circle does move it:
the fits differ at this translation. -/
theorem fit_translation_fractional_counterexample :
    circle_from_three_vertex (Vertex.add ⟨65536, 0⟩ ⟨32768, 0⟩)
        (Vertex.add ⟨0, 65536⟩ ⟨32768, 0⟩)
        (Vertex.add ⟨-65536, 0⟩ ⟨32768, 0⟩) ≠
      Option.map (fun c => c.addVertex ⟨32768, 0⟩)
        (circle_from_three_vertex ⟨65536, 0⟩ ⟨0, 65536⟩ ⟨-65536, 0⟩) := by
  decide

/-- C3 amended: for a translation with integer coordinates whose
translated inputs stay representable, whenever the fit succeeds on both
the original and the translated triple, the translated fit is the
original fit translated by the same point. -/
theorem fit_translation_invariance_integer
    (v1 v2 v3 t : Vertex)
    (hv1 : v1.valid) (hv2 : v2.valid) (hv3 : v3.valid) (htv : t.valid)
    (htx : 2 ^ 16 ∣ t.x) (hty : 2 ^ 16 ∣ t.y)
    (hs1x : fxValid (v1.x + t.x)) (hs1y : fxValid (v1.y + t.y))
    (hs2x : fxValid (v2.x + t.x)) (hs2y : fxValid (v2.y + t.y))
    (hs3x : fxValid (v3.x + t.x)) (hs3y : fxValid (v3.y + t.y))
    (c c' : Circle)
    (h : circle_from_three_vertex v1 v2 v3 = some c)
    (h' : circle_from_three_vertex (v1.add t) (v2.add t) (v3.add t) = some c') :
    c' = c.addVertex t := by
  obtain ⟨tx, htxe⟩ := htx
  obtain ⟨ty, htye⟩ := hty
  have htxe' : t.x = tx * 2 ^ 16 := by rw [htxe]; ring
  have htye' : t.y = ty * 2 ^ 16 := by rw [htye]; ring
  have htxb : -2 ^ 15 ≤ tx ∧ tx < 2 ^ 15 := by
    have h1 := htv.1
    rw [htxe'] at h1
    unfold fxValid at h1
    omega
  have htyb : -2 ^ 15 ≤ ty ∧ ty < 2 ^ 15 := by
    have h1 := htv.2
    rw [htye'] at h1
    unfold fxValid at h1
    omega
  unfold circle_from_three_vertex at h h'
  simp only [Vertex.add] at h'
  obtain ⟨f1x, g1x⟩ := floor_shift htxe' hs1x
  obtain ⟨f1y, g1y⟩ := floor_shift htye' hs1y
  obtain ⟨f2x, g2x⟩ := floor_shift htxe' hs2x
  obtain ⟨f2y, g2y⟩ := floor_shift htye' hs2y
  obtain ⟨f3x, g3x⟩ := floor_shift htxe' hs3x
  obtain ⟨f3y, g3y⟩ := floor_shift htye' hs3y
  rw [f1x, f1y, f2x, f2y, f3x, f3y] at h'
  set bx1 := fxToI64 v1.x with hsx1
  set by1 := fxToI64 v1.y with hsy1
  set bx2 := fxToI64 v2.x with hsx2
  set by2 := fxToI64 v2.y with hsy2
  set bx3 := fxToI64 v3.x with hsx3
  set by3 := fxToI64 v3.y with hsy3
  have n1x : -2 ^ 15 ≤ bx1 ∧ bx1 < 2 ^ 15 := fxToI64_bound hv1.1
  have n1y : -2 ^ 15 ≤ by1 ∧ by1 < 2 ^ 15 := fxToI64_bound hv1.2
  have n2x : -2 ^ 15 ≤ bx2 ∧ bx2 < 2 ^ 15 := fxToI64_bound hv2.1
  have n2y : -2 ^ 15 ≤ by2 ∧ by2 < 2 ^ 15 := fxToI64_bound hv2.2
  have n3x : -2 ^ 15 ≤ bx3 ∧ bx3 < 2 ^ 15 := fxToI64_bound hv3.1
  have n3y : -2 ^ 15 ≤ by3 ∧ by3 < 2 ^ 15 := fxToI64_bound hv3.2
  have a1x : |bx1| ≤ 2 ^ 15 := abs_le.mpr ⟨n1x.1, n1x.2.le⟩
  have a1y : |by1| ≤ 2 ^ 15 := abs_le.mpr ⟨n1y.1, n1y.2.le⟩
  have a2x : |bx2| ≤ 2 ^ 15 := abs_le.mpr ⟨n2x.1, n2x.2.le⟩
  have a2y : |by2| ≤ 2 ^ 15 := abs_le.mpr ⟨n2y.1, n2y.2.le⟩
  have a3x : |bx3| ≤ 2 ^ 15 := abs_le.mpr ⟨n3x.1, n3x.2.le⟩
  have a3y : |by3| ≤ 2 ^ 15 := abs_le.mpr ⟨n3y.1, n3y.2.le⟩
  have b1x : |bx1 + tx| ≤ 2 ^ 15 := abs_le.mpr ⟨g1x.1, g1x.2.le⟩
  have b1y : |by1 + ty| ≤ 2 ^ 15 := abs_le.mpr ⟨g1y.1, g1y.2.le⟩
  have b2x : |bx2 + tx| ≤ 2 ^ 15 := abs_le.mpr ⟨g2x.1, g2x.2.le⟩
  have b2y : |by2 + ty| ≤ 2 ^ 15 := abs_le.mpr ⟨g2y.1, g2y.2.le⟩
  have b3x : |bx3 + tx| ≤ 2 ^ 15 := abs_le.mpr ⟨g3x.1, g3x.2.le⟩
  have b3y : |by3 + ty| ≤ 2 ^ 15 := abs_le.mpr ⟨g3y.1, g3y.2.le⟩
  unfold fitCore at h h'
  have hfneq := fnumZ_exact a1x a1y a2x a2y a3x a3y
  have hfdeq := fdenZ_exact a1x a1y a2x a2y a3x a3y
  have hgneq := gnumZ_exact a1x a1y a2x a2y a3x a3y
  have hgdeq := gdenZ_exact a1x a1y a2x a2y a3x a3y
  have hfneq' :
      fnumZ (bx1 + tx) (by1 + ty) (bx2 + tx) (by2 + ty) (bx3 + tx) (by3 + ty) =
        ((bx1 * bx1 - bx3 * bx3) * (bx1 - bx2) +
            (by1 * by1 - by3 * by3) * (bx1 - bx2) +
            (bx2 * bx2 - bx1 * bx1) * (bx1 - bx3) +
            (by2 * by2 - by1 * by1) * (bx1 - bx3)) +
          -ty * (2 * ((by3 - by1) * (bx1 - bx2) - (by2 - by1) * (bx1 - bx3))) :=
    (fnumZ_exact b1x b1y b2x b2y b3x b3y).trans (by ring)
  have hfdeq' :
      fdenZ (bx1 + tx) (by1 + ty) (bx2 + tx) (by2 + ty) (bx3 + tx) (by3 + ty) =
        2 * ((by3 - by1) * (bx1 - bx2) - (by2 - by1) * (bx1 - bx3)) :=
    (fdenZ_exact b1x b1y b2x b2y b3x b3y).trans (by ring)
  have hgneq' :
      gnumZ (bx1 + tx) (by1 + ty) (bx2 + tx) (by2 + ty) (bx3 + tx) (by3 + ty) =
        ((bx1 * bx1 - bx3 * bx3) * (by1 - by2) +
            (by1 * by1 - by3 * by3) * (by1 - by2) +
            (bx2 * bx2 - bx1 * bx1) * (by1 - by3) +
            (by2 * by2 - by1 * by1) * (by1 - by3)) +
          -tx * (2 * ((bx3 - bx1) * (by1 - by2) - (bx2 - bx1) * (by1 - by3))) :=
    (gnumZ_exact b1x b1y b2x b2y b3x b3y).trans (by ring)
  have hgdeq' :
      gdenZ (bx1 + tx) (by1 + ty) (bx2 + tx) (by2 + ty) (bx3 + tx) (by3 + ty) =
        2 * ((bx3 - bx1) * (by1 - by2) - (bx2 - bx1) * (by1 - by3)) :=
    (gdenZ_exact b1x b1y b2x b2y b3x b3y).trans (by ring)
  rw [hfneq, hfdeq, hgneq, hgdeq] at h
  rw [hfneq', hfdeq', hgneq', hgdeq'] at h'
  simp only [Option.bind_eq_some, Option.map_eq_some'] at h h'
  obtain ⟨f, hf, g, hg, cx, hcx, cy, hcy, rv, hrv, cr, hcr, hc⟩ := h
  obtain ⟨f', hf', g', hg', cx', hcx', cy', hcy', rv', hrv', cr', hcr', hc'⟩ := h'
  obtain ⟨hD0, hfv⟩ := i64div_some hf
  obtain ⟨hDg0, hgv⟩ := i64div_some hg
  obtain ⟨-, hfv'⟩ := i64div_some hf'
  obtain ⟨-, hgv'⟩ := i64div_some hg'
  rw [fdiv_add_mul_right _ _ hD0] at hfv'
  rw [fdiv_add_mul_right _ _ hDg0] at hgv'
  obtain ⟨rgx, hcxe⟩ := i64ToFx_some hcx
  obtain ⟨rgy, hcye⟩ := i64ToFx_some hcy
  obtain ⟨rgx', hcxe'⟩ := i64ToFx_some hcx'
  obtain ⟨rgy', hcye'⟩ := i64ToFx_some hcy'
  unfold i64neg at rgx hcxe rgy hcye rgx' hcxe' rgy' hcye'
  -- the two centers differ exactly by the integer translation
  have hgA : wrap64 (-g') = wrap64 (-g) + tx := by
    have m1 := wrap64_emod (-g')
    have m2 : g' % 2 ^ 64 =
        (Int.fdiv ((bx1 * bx1 - bx3 * bx3) * (by1 - by2) +
              (by1 * by1 - by3 * by3) * (by1 - by2) +
              (bx2 * bx2 - bx1 * bx1) * (by1 - by3) +
              (by2 * by2 - by1 * by1) * (by1 - by3))
            (2 * ((bx3 - bx1) * (by1 - by2) - (bx2 - bx1) * (by1 - by3))) +
          -tx) % 2 ^ 64 := by
      rw [hgv']
      exact wrap64_emod _
    have m3 := wrap64_emod (-g)
    have m4 : g % 2 ^ 64 =
        (Int.fdiv ((bx1 * bx1 - bx3 * bx3) * (by1 - by2) +
              (by1 * by1 - by3 * by3) * (by1 - by2) +
              (bx2 * bx2 - bx1 * bx1) * (by1 - by3) +
              (by2 * by2 - by1 * by1) * (by1 - by3))
            (2 * ((bx3 - bx1) * (by1 - by2) - (bx2 - bx1) * (by1 - by3)))) %
          2 ^ 64 := by
      rw [hgv]
      exact wrap64_emod _
    omega
  have hfA : wrap64 (-f') = wrap64 (-f) + ty := by
    have m1 := wrap64_emod (-f')
    have m2 : f' % 2 ^ 64 =
        (Int.fdiv ((bx1 * bx1 - bx3 * bx3) * (bx1 - bx2) +
              (by1 * by1 - by3 * by3) * (bx1 - bx2) +
              (bx2 * bx2 - bx1 * bx1) * (bx1 - bx3) +
              (by2 * by2 - by1 * by1) * (bx1 - bx3))
            (2 * ((by3 - by1) * (bx1 - bx2) - (by2 - by1) * (bx1 - bx3))) +
          -ty) % 2 ^ 64 := by
      rw [hfv']
      exact wrap64_emod _
    have m3 := wrap64_emod (-f)
    have m4 : f % 2 ^ 64 =
        (Int.fdiv ((bx1 * bx1 - bx3 * bx3) * (bx1 - bx2) +
              (by1 * by1 - by3 * by3) * (bx1 - bx2) +
              (bx2 * bx2 - bx1 * bx1) * (bx1 - bx3) +
              (by2 * by2 - by1 * by1) * (bx1 - bx3))
            (2 * ((by3 - by1) * (bx1 - bx2) - (by2 - by1) * (bx1 - bx3)))) %
          2 ^ 64 := by
      rw [hfv]
      exact wrap64_emod _
    omega
  -- x component
  have hcxfin : cx' = fxAdd cx t.x := by
    rw [hcxe', hcxe, htxe', hgA]
    unfold fxAdd
    rw [show wrap64 (-g) * 2 ^ 16 + tx * 2 ^ 16 = (wrap64 (-g) + tx) * 2 ^ 16
        from by ring]
    have hb : -2 ^ 15 ≤ wrap64 (-g) + tx ∧ wrap64 (-g) + tx < 2 ^ 15 := by
      rw [← hgA]
      exact rgx'
    rw [wrap32_eq_self (by omega) (by omega)]
  -- y component
  have hcyfin : cy' = fxAdd cy t.y := by
    rw [hcye', hcye, htye', hfA]
    unfold fxAdd
    rw [show wrap64 (-f) * 2 ^ 16 + ty * 2 ^ 16 = (wrap64 (-f) + ty) * 2 ^ 16
        from by ring]
    have hb : -2 ^ 15 ≤ wrap64 (-f) + ty ∧ wrap64 (-f) + ty < 2 ^ 15 := by
      rw [← hfA]
      exact rgy'
    rw [wrap32_eq_self (by omega) (by omega)]
  -- radicand, square root, radius
  have hsq : sqrOfRZ f' g' (bx1 + tx) (by1 + ty) = sqrOfRZ f g bx1 by1 := by
    rw [sqrOfRZ_wrap, sqrOfRZ_wrap]
    apply wrap64_eq_of_emod
    have hg'm : g' ≡ Int.fdiv ((bx1 * bx1 - bx3 * bx3) * (by1 - by2) +
          (by1 * by1 - by3 * by3) * (by1 - by2) +
          (bx2 * bx2 - bx1 * bx1) * (by1 - by3) +
          (by2 * by2 - by1 * by1) * (by1 - by3))
        (2 * ((bx3 - bx1) * (by1 - by2) - (bx2 - bx1) * (by1 - by3))) +
          -tx [ZMOD 2 ^ 64] := by
      rw [hgv']
      exact wrap64_modEq _
    have hgm : g ≡ Int.fdiv ((bx1 * bx1 - bx3 * bx3) * (by1 - by2) +
          (by1 * by1 - by3 * by3) * (by1 - by2) +
          (bx2 * bx2 - bx1 * bx1) * (by1 - by3) +
          (by2 * by2 - by1 * by1) * (by1 - by3))
        (2 * ((bx3 - bx1) * (by1 - by2) - (bx2 - bx1) * (by1 - by3)))
          [ZMOD 2 ^ 64] := by
      rw [hgv]
      exact wrap64_modEq _
    have hf'm : f' ≡ Int.fdiv ((bx1 * bx1 - bx3 * bx3) * (bx1 - bx2) +
          (by1 * by1 - by3 * by3) * (bx1 - bx2) +
          (bx2 * bx2 - bx1 * bx1) * (bx1 - bx3) +
          (by2 * by2 - by1 * by1) * (bx1 - bx3))
        (2 * ((by3 - by1) * (bx1 - bx2) - (by2 - by1) * (bx1 - bx3))) +
          -ty [ZMOD 2 ^ 64] := by
      rw [hfv']
      exact wrap64_modEq _
    have hfm : f ≡ Int.fdiv ((bx1 * bx1 - bx3 * bx3) * (bx1 - bx2) +
          (by1 * by1 - by3 * by3) * (bx1 - bx2) +
          (bx2 * bx2 - bx1 * bx1) * (bx1 - bx3) +
          (by2 * by2 - by1 * by1) * (bx1 - bx3))
        (2 * ((by3 - by1) * (bx1 - bx2) - (by2 - by1) * (bx1 - bx3)))
          [ZMOD 2 ^ 64] := by
      rw [hfv]
      exact wrap64_modEq _
    have e1 : g' + (bx1 + tx) ≡ g + bx1 [ZMOD 2 ^ 64] := by
      have u1 := hg'm.add_right (bx1 + tx)
      have u2 := hgm.add_right bx1
      have u3 : Int.fdiv ((bx1 * bx1 - bx3 * bx3) * (by1 - by2) +
            (by1 * by1 - by3 * by3) * (by1 - by2) +
            (bx2 * bx2 - bx1 * bx1) * (by1 - by3) +
            (by2 * by2 - by1 * by1) * (by1 - by3))
          (2 * ((bx3 - bx1) * (by1 - by2) - (bx2 - bx1) * (by1 - by3))) +
            -tx + (bx1 + tx) =
          Int.fdiv ((bx1 * bx1 - bx3 * bx3) * (by1 - by2) +
            (by1 * by1 - by3 * by3) * (by1 - by2) +
            (bx2 * bx2 - bx1 * bx1) * (by1 - by3) +
            (by2 * by2 - by1 * by1) * (by1 - by3))
          (2 * ((bx3 - bx1) * (by1 - by2) - (bx2 - bx1) * (by1 - by3))) +
            bx1 := by ring
      rw [u3] at u1
      exact u1.trans u2.symm
    have e2 : f' + (by1 + ty) ≡ f + by1 [ZMOD 2 ^ 64] := by
      have u1 := hf'm.add_right (by1 + ty)
      have u2 := hfm.add_right by1
      have u3 : Int.fdiv ((bx1 * bx1 - bx3 * bx3) * (bx1 - bx2) +
            (by1 * by1 - by3 * by3) * (bx1 - bx2) +
            (bx2 * bx2 - bx1 * bx1) * (bx1 - bx3) +
            (by2 * by2 - by1 * by1) * (bx1 - bx3))
          (2 * ((by3 - by1) * (bx1 - bx2) - (by2 - by1) * (bx1 - bx3))) +
            -ty + (by1 + ty) =
          Int.fdiv ((bx1 * bx1 - bx3 * bx3) * (bx1 - bx2) +
            (by1 * by1 - by3 * by3) * (bx1 - bx2) +
            (bx2 * bx2 - bx1 * bx1) * (bx1 - bx3) +
            (by2 * by2 - by1 * by1) * (bx1 - bx3))
          (2 * ((by3 - by1) * (bx1 - bx2) - (by2 - by1) * (bx1 - bx3))) +
            by1 := by ring
      rw [u3] at u1
      exact u1.trans u2.symm
    exact (e1.pow 2).add (e2.pow 2)
  rw [hsq] at hrv'
  have hrveq : rv' = rv := Option.some.inj (hrv'.symm.trans hrv)
  obtain ⟨-, hcre⟩ := i64ToFx_some hcr
  obtain ⟨-, hcre'⟩ := i64ToFx_some hcr'
  have hcrfin : cr' = cr := by rw [hcre', hcre, hrveq]
  rw [← hc, ← hc']
  unfold Circle.addVertex
  rw [hcxfin, hcyfin, hcrfin]

/-- Witness for C3's amended theorem: the unit-circle triple translated
by the integer point (1, 1). -/
theorem fit_translation_invariance_integer_witness :
    (⟨65536, 65536, 65536⟩ : Circle) =
      Circle.addVertex ⟨0, 0, 65536⟩ ⟨65536, 65536⟩ :=
  fit_translation_invariance_integer ⟨65536, 0⟩ ⟨0, 65536⟩ ⟨-65536, 0⟩
    ⟨65536, 65536⟩ (by decide) (by decide) (by decide) (by decide) (by decide)
    (by decide) (by decide) (by decide) (by decide) (by decide) (by decide)
    (by decide) ⟨0, 0, 65536⟩ ⟨65536, 65536, 65536⟩ (by decide) (by decide)

/-- Witness for C4: a triple with fractional parts fits to the same
circle as its integer-part triple, and the reference radius raw is an
integer times 2^16. -/
theorem fit_depends_on_integer_parts_witness :
    (circle_from_three_vertex ⟨98304, 0⟩ ⟨0, 98304⟩ ⟨-32768, 0⟩ =
        circle_from_three_vertex ⟨65536, 0⟩ ⟨0, 65536⟩ ⟨-65536, 0⟩) ∧
      ∃ n : ℕ, (Circle.mk 0 0 65536).r = (n : ℤ) * 2 ^ 16 :=
  ⟨fit_depends_on_integer_parts.1 ⟨98304, 0⟩ ⟨0, 98304⟩ ⟨-32768, 0⟩
      ⟨65536, 0⟩ ⟨0, 65536⟩ ⟨-65536, 0⟩ (by decide) (by decide) (by decide)
      (by decide) (by decide) (by decide),
    fit_depends_on_integer_parts.2 ⟨65536, 0⟩ ⟨0, 65536⟩ ⟨-65536, 0⟩
      ⟨0, 0, 65536⟩ (by decide)⟩

end QuadDecoder
